import Mathlib

/-!
Verification development for the fixup-target discovery engine of
fastfixupfinder (src/fastfixupfinder/git_analyzer.py).

The Python code is shallowly embedded: pure functions become Lean
functions on `List Char` / `String` / `Nat` / `Rat`; interactions with
the git history (git show, git blame, commit lookup, regex compilation
of user-supplied patterns) are abstracted as oracle parameters; code
paths that can raise Python exceptions are modelled with `Except`.
-/

namespace FFF

attribute [local semireducible] Rat.mul Rat.add Rat.sub Rat.inv

/-! ## Data model (git_analyzer.py, dataclasses and enums) -/

inductive ChangeClassification where
  | likely_fixup
  | possible_fixup
  | unlikely_fixup
  | new_file
deriving DecidableEq, Repr

inductive FilterMode where
  | smart_default
  | fixups_only
  | include_all
deriving DecidableEq, Repr

structure ChangedLine where
  file_path : String
  line_number : Nat
  content : String
  change_type : String
  classification : ChangeClassification := ChangeClassification.possible_fixup
  context_lines : Option (List String) := none
deriving DecidableEq, Repr

structure BlameInfo where
  commit_hash : String
  commit_message : String
  author : String
  line_content : String
deriving DecidableEq, Repr

structure FixupTarget where
  commit_hash : String
  commit_message : String
  author : String
  changed_lines : List ChangedLine
  files : List String
deriving DecidableEq, Repr

/-! ## Python string primitives -/

/-- Python whitespace for `str.strip` / regex `\s` (ASCII range). -/
def isPySpace (c : Char) : Bool :=
  c == ' ' || c == '\t' || c == '\n' || c == '\r' || c == '\x0b' || c == '\x0c'

/-- Python regex word character `\w` (ASCII range). -/
def isWordChar (c : Char) : Bool :=
  c.isAlpha || c.isDigit || c == '_'

/-- Python `str.strip()` on a character list. -/
def pyStrip (s : List Char) : List Char :=
  ((s.dropWhile isPySpace).reverse.dropWhile isPySpace).reverse

/-- Python `str.lower()` on a character list (ASCII range). -/
def pyLower (s : List Char) : List Char :=
  s.map Char.toLower

/-- Keep the first occurrence of each element, in order
(Python `list(dict.fromkeys(...))`, also used to determinize small sets). -/
def dedupKeepFirstAux {α : Type} [DecidableEq α] (seen : List α) : List α → List α
  | [] => []
  | a :: rest =>
    if a ∈ seen then dedupKeepFirstAux seen rest
    else a :: dedupKeepFirstAux (a :: seen) rest

def dedupKeepFirst {α : Type} [DecidableEq α] (l : List α) : List α :=
  dedupKeepFirstAux [] l

/-- Match a literal at the head of the list; on success return the rest. -/
def dropLit : List Char → List Char → Option (List Char)
  | [], s => some s
  | _, [] => none
  | c :: cs, d :: ds => if c = d then dropLit cs ds else none

/-- Python `str.startswith`. -/
def startsWithL (p : String) (l : List Char) : Bool :=
  (dropLit p.toList l).isSome

/-! ## difflib.SequenceMatcher ratio

`SequenceMatcher(None, a, b).ratio()` with the default autojunk
heuristic: when `len(b) >= 200`, characters occurring more than
`len(b) // 100 + 1` times in `b` are dropped from the index `b2j`
(`bpopular`); the dynamic-programming scan for the longest matching
block only sees non-popular characters of `b`, and the chosen block is
then extended on both sides by plain character equality (the `bjunk`
set is empty since no junk predicate is supplied). -/

/-- Characters of `b` excluded from `b2j` by the autojunk heuristic. -/
def bPopular (b : List Char) (c : Char) : Bool :=
  decide (200 ≤ b.length) && decide (b.length / 100 + 1 < b.count c)

def charEqAt (a b : List Char) (i j : Nat) : Bool :=
  match a.get? i, b.get? j with
  | some x, some y => x == y
  | _, _ => false

/-- Length of the common run starting at `(i, j)` staying below
`(ahi, bhi)` and using only non-popular characters of `b`. -/
def coreRunLen (a b : List Char) (pop : Char → Bool) (ahi bhi : Nat) :
    Nat → Nat → Nat → Nat
  | 0, _, _ => 0
  | fuel + 1, i, j =>
    if i < ahi ∧ j < bhi then
      match a.get? i, b.get? j with
      | some x, some y =>
        if x = y ∧ pop y = false then coreRunLen a b pop ahi bhi fuel (i + 1) (j + 1) + 1
        else 0
      | _, _ => 0
    else 0

/-- Best core block in the window: maximal length, ties broken by the
smallest start in `a` then in `b` (the scan order of the Python DP). -/
def bestCore (a b : List Char) (pop : Char → Bool) (alo ahi blo bhi : Nat) :
    Nat × Nat × Nat :=
  (List.range' alo (ahi - alo)).foldl
    (fun acc i =>
      (List.range' blo (bhi - blo)).foldl
        (fun acc2 j =>
          let k := coreRunLen a b pop ahi bhi ahi i j
          if acc2.2.2 < k then (i, j, k) else acc2)
        acc)
    (alo, blo, 0)

def extLeft (a b : List Char) (alo blo : Nat) :
    Nat → Nat → Nat → Nat → Nat × Nat × Nat
  | 0, i, j, k => (i, j, k)
  | fuel + 1, i, j, k =>
    if alo < i ∧ blo < j ∧ charEqAt a b (i - 1) (j - 1) = true then
      extLeft a b alo blo fuel (i - 1) (j - 1) (k + 1)
    else (i, j, k)

def extRight (a b : List Char) (ahi bhi : Nat) :
    Nat → Nat → Nat → Nat → Nat
  | 0, _, _, k => k
  | fuel + 1, i, j, k =>
    if i + k < ahi ∧ j + k < bhi ∧ charEqAt a b (i + k) (j + k) = true then
      extRight a b ahi bhi fuel i j (k + 1)
    else k

/-- `find_longest_match` on a window, with empty `bjunk`. -/
def findLongestMatchW (a b : List Char) (pop : Char → Bool)
    (alo ahi blo bhi : Nat) : Nat × Nat × Nat :=
  let c := bestCore a b pop alo ahi blo bhi
  let e := extLeft a b alo blo c.1 c.1 c.2.1 c.2.2
  (e.1, e.2.1, extRight a b ahi bhi ahi e.1 e.2.1 e.2.2)

/-- Total size of all matching blocks (`get_matching_blocks` recursion);
the fuel argument strictly exceeds the window-size sum, which shrinks
at every recursive call. -/
def matchTotalAux (a b : List Char) (pop : Char → Bool) :
    Nat → Nat → Nat → Nat → Nat → Nat
  | 0, _, _, _, _ => 0
  | fuel + 1, alo, ahi, blo, bhi =>
    let m := findLongestMatchW a b pop alo ahi blo bhi
    if m.2.2 = 0 then 0
    else
      m.2.2 + matchTotalAux a b pop fuel alo m.1 blo m.2.1 +
        matchTotalAux a b pop fuel (m.1 + m.2.2) ahi (m.2.1 + m.2.2) bhi

def matchTotal (a b : List Char) : Nat :=
  matchTotalAux a b (bPopular b) (a.length + b.length + 1) 0 a.length 0 b.length

/-- `SequenceMatcher.ratio()`: `2*M / T`, or `1.0` when both empty. -/
def simScore (a b : List Char) : ℚ :=
  let total := a.length + b.length
  if total = 0 then 1 else ((2 * matchTotal a b : Nat) : ℚ) / (total : ℚ)

/-- `GitAnalyzer._calculate_similarity`: strip both strings, return 0.0
when either becomes empty, otherwise the SequenceMatcher ratio. -/
def calculateSimilarity (str1 str2 : String) : ℚ :=
  let a := pyStrip str1.toList
  let b := pyStrip str2.toList
  if a = [] ∨ b = [] then 0 else simScore a b

/-! ## GitAnalyzer._parse_diff

The two line-number counters are Python locals assigned only inside the
well-formed-hunk-header branch; referencing them before any assignment
raises `UnboundLocalError`, which the embedding models as
`Except.error`. -/

def digitsToNat (ds : List Char) : Nat :=
  ds.foldl (fun n c => n * 10 + (c.toNat - 48)) 0

/-- Regex `\d+` with maximal munch (exact here: the following pattern
characters are never digits). -/
def takeDigitsNat (l : List Char) : Option (Nat × List Char) :=
  let p := l.span Char.isDigit
  if p.1 = [] then none else some (digitsToNat p.1, p.2)

/-- Regex `(?:,(\d+))?` followed by a literal space: if a comma is next
it must be followed by digits, otherwise the group matches empty. -/
def skipOptCountField : List Char → Option (List Char)
  | ',' :: rest => (takeDigitsNat rest).map (fun p => p.2)
  | l => some l

/-- Regex `@@ -(\d+)(?:,(\d+))? \+(\d+)(?:,(\d+))? @@` anchored at the
head of the list, returning `(old_start, new_start)`. -/
def hunkAt (l : List Char) : Option (Nat × Nat) := do
  let r1 ← dropLit (("@@ -").toList) l
  let p1 ← takeDigitsNat r1
  let r2 ← skipOptCountField p1.2
  let r3 ← dropLit ((" +").toList) r2
  let p2 ← takeDigitsNat r3
  let r4 ← skipOptCountField p2.2
  let _ ← dropLit ((" @@").toList) r4
  some (p1.1, p2.1)

/-- `re.search` of the hunk-header pattern: leftmost position wins. -/
def searchHunk : List Char → Option (Nat × Nat)
  | [] => none
  | c :: rest =>
    match hunkAt (c :: rest) with
    | some p => some p
    | none => searchHunk rest

/-- Last occurrence of `" b/"` with a nonempty suffix after it (the
first `(.+)` of the file-header regex is greedy, so the split uses the
last such occurrence). -/
def lastBSplitFrom : List Char → Option (List Char)
  | [] => none
  | c :: rest =>
    match lastBSplitFrom rest with
    | some g => some g
    | none =>
      match dropLit ((" b/").toList) (c :: rest) with
      | some (g :: gs) => some (g :: gs)
      | _ => none

/-- Regex `diff --git a/(.+) b/(.+)$` anchored at the head of the list,
returning group 2 (the `b/` path). -/
def diffGitAt (l : List Char) : Option (List Char) := do
  let r ← dropLit (("diff --git a/").toList) l
  match r with
  | [] => none
  | _ :: rrest => lastBSplitFrom rrest

/-- `re.search` of the file-header pattern: leftmost position wins. -/
def searchDiffGit : List Char → Option (List Char)
  | [] => none
  | c :: rest =>
    match diffGitAt (c :: rest) with
    | some g => some g
    | none => searchDiffGit rest

structure ParseState where
  current_file : Option String
  old_line_num : Option Nat
  new_line_num : Option Nat
deriving Repr

/-- One iteration of the `_parse_diff` loop body: the next state and
the records emitted for this line. -/
def parseDiffStep (st : ParseState) (l : List Char) :
    Except String (ParseState × List ChangedLine) :=
  if startsWithL ("diff --git") l then
    match searchDiffGit l with
    | some f => Except.ok ({ st with current_file := some (String.mk f) }, [])
    | none => Except.ok (st, [])
  else if startsWithL ("@@") l then
    match searchHunk l, st.current_file with
    | some p, some _ =>
      Except.ok ({ st with old_line_num := some p.1, new_line_num := some p.2 }, [])
    | _, _ => Except.ok (st, [])
  else if startsWithL ("-") l && !startsWithL ("---") l then
    match st.current_file with
    | some f =>
      match st.old_line_num with
      | some o =>
        Except.ok ({ st with old_line_num := some (o + 1) },
          [{ file_path := f, line_number := o, content := String.mk (l.drop 1),
             change_type := "deleted" }])
      | none => Except.error ("UnboundLocalError: old_line_num")
    | none => Except.ok (st, [])
  else if startsWithL ("+") l && !startsWithL ("+++") l then
    match st.current_file with
    | some f =>
      match st.new_line_num with
      | some n =>
        Except.ok ({ st with new_line_num := some (n + 1) },
          [{ file_path := f, line_number := n, content := String.mk (l.drop 1),
             change_type := "added" }])
      | none => Except.error ("UnboundLocalError: new_line_num")
    | none => Except.ok (st, [])
  else if startsWithL (" ") l then
    match st.old_line_num with
    | some o =>
      match st.new_line_num with
      | some n =>
        Except.ok ({ st with old_line_num := some (o + 1), new_line_num := some (n + 1) }, [])
      | none => Except.error ("UnboundLocalError: new_line_num")
    | none => Except.error ("UnboundLocalError: old_line_num")
  else Except.ok (st, [])

def parseDiffGo (st : ParseState) : List (List Char) → Except String (List ChangedLine)
  | [] => Except.ok []
  | l :: rest => do
    let r ← parseDiffStep st l
    let more ← parseDiffGo r.1 rest
    Except.ok (r.2 ++ more)

/-- Python `str.split` on a single newline separator (keeps empty parts). -/
def splitOnNlAux (cur : List Char) : List Char → List (List Char)
  | [] => [cur.reverse]
  | c :: rest =>
    if c = '\n' then cur.reverse :: splitOnNlAux [] rest
    else splitOnNlAux (c :: cur) rest

/-- `GitAnalyzer._parse_diff` over the whole diff text. -/
def parseDiff (diff_output : String) : Except String (List ChangedLine) :=
  parseDiffGo ⟨none, none, none⟩ (splitOnNlAux [] diff_output.toList)

/-! ## GitAnalyzer._enhance_change_detection -/

def lineDist (del_line add_line : ChangedLine) : Nat :=
  ((add_line.line_number : Int) - (del_line.line_number : Int)).natAbs

def simOf (del_line add_line : ChangedLine) : ℚ :=
  calculateSimilarity del_line.content add_line.content

/-- The candidacy condition of the pairing loop: unpaired, within the
5-line window, similarity above 0.6. -/
def pairCandidate (used_added : List ChangedLine) (del_line a : ChangedLine) : Prop :=
  a ∉ used_added ∧ lineDist del_line a ≤ 5 ∧ 3 / 5 < simOf del_line a

instance (used_added : List ChangedLine) (del_line a : ChangedLine) :
    Decidable (pairCandidate used_added del_line a) := by
  unfold pairCandidate; infer_instance

/-- The inner candidate scan of `_enhance_change_detection`: the
accumulator is `(best_match, best_similarity)`, initially `(none, 0.0)`. -/
def bestLoop (del_line : ChangedLine) (used_added : List ChangedLine) :
    List ChangedLine → Option ChangedLine × ℚ → Option ChangedLine × ℚ
  | [], acc => acc
  | a :: rest, acc =>
    if a ∈ used_added then bestLoop del_line used_added rest acc
    else if 5 < lineDist del_line a then bestLoop del_line used_added rest acc
    else
      let s := simOf del_line a
      if 3 / 5 < s ∧ acc.2 < s then bestLoop del_line used_added rest (some a, s)
      else bestLoop del_line used_added rest acc

def bestMatch (del_line : ChangedLine) (used_added added_lines : List ChangedLine) :
    Option ChangedLine :=
  (bestLoop del_line used_added added_lines (none, 0)).1

/-- The synthetic record for a reconciled pair: the deleted line's
position, the added line's content. -/
def mkModified (del_line add_line : ChangedLine) : ChangedLine :=
  { file_path := del_line.file_path, line_number := del_line.line_number,
    content := add_line.content, change_type := "modified" }

/-- Invariant of the candidate scan after processing a prefix `pre` of
the added lines: the accumulator holds the first candidate attaining
the maximal similarity seen so far, or nothing when no candidate has
been seen. -/
def BestAcc (del_line : ChangedLine) (used_added pre : List ChangedLine)
    (acc : Option ChangedLine × ℚ) : Prop :=
  (acc.1 = none → acc.2 = 0 ∧ ∀ b ∈ pre, ¬ pairCandidate used_added del_line b) ∧
  (∀ a, acc.1 = some a →
    a ∈ pre ∧ pairCandidate used_added del_line a ∧ acc.2 = simOf del_line a ∧
      (∀ b ∈ pre, pairCandidate used_added del_line b →
        simOf del_line b ≤ simOf del_line a) ∧
      ∃ l1 l2, pre = l1 ++ a :: l2 ∧
        ∀ b ∈ l1, pairCandidate used_added del_line b →
          simOf del_line b < simOf del_line a)

/-- Where a synthetic `modified` record can come from: a deleted and
an added line of the same file group, within the window, above the
similarity threshold, merged with the deleted line's position and the
added line's content. -/
def modifiedProvenance (lines : List ChangedLine) (r : ChangedLine) : Prop :=
  ∃ d a, d ∈ lines ∧ a ∈ lines ∧ d.change_type = "deleted" ∧ a.change_type = "added" ∧
    lineDist d a ≤ 5 ∧ 3 / 5 < simOf d a ∧ r = mkModified d a

structure EnhanceAcc where
  usedDel : List ChangedLine
  usedAdd : List ChangedLine
  out : List ChangedLine

/-- One iteration of the pairing loop over deleted lines. -/
def enhanceStep (added_lines : List ChangedLine) (acc : EnhanceAcc)
    (del_line : ChangedLine) : EnhanceAcc :=
  if del_line ∈ acc.usedDel then acc
  else
    match bestMatch del_line acc.usedAdd added_lines with
    | some a =>
      ⟨del_line :: acc.usedDel, a :: acc.usedAdd, acc.out ++ [mkModified del_line a]⟩
    | none => ⟨acc.usedDel, acc.usedAdd, acc.out ++ [del_line]⟩

/-- Per-file body of `_enhance_change_detection`. -/
def enhanceFile (lines : List ChangedLine) : List ChangedLine :=
  let deleted_lines := lines.filter (fun l => l.change_type == "deleted")
  let added_lines := lines.filter (fun l => l.change_type == "added")
  let other_lines :=
    lines.filter (fun l => !(l.change_type == "deleted") && !(l.change_type == "added"))
  let fin := deleted_lines.foldl (enhanceStep added_lines) ⟨[], [], []⟩
  fin.out ++ deleted_lines.filter (fun l => decide (l ∉ fin.usedDel)) ++
    added_lines.filter (fun l => decide (l ∉ fin.usedAdd)) ++ other_lines

/-- `GitAnalyzer._enhance_change_detection`: group by file path in
first-encounter order, process each file group independently. -/
def enhanceChangeDetection (changed_lines : List ChangedLine) : List ChangedLine :=
  (dedupKeepFirst (changed_lines.map (fun l => l.file_path))).foldl
    (fun acc f => acc ++ enhanceFile (changed_lines.filter (fun l => l.file_path == f)))
    []

/-! ## ChangeClassifier

The concrete regular expressions of the classifier are embedded as
executable predicates on character lists with Python search semantics
(existence of a match, backtracking included). -/

def prevBoundary : Option Char → Bool
  | none => true
  | some c => !isWordChar c

def endBoundary : List Char → Bool
  | [] => true
  | c :: _ => !isWordChar c

/-- Match a literal, then continue with `p` on the rest. -/
def litThen (w : String) (p : List Char → Bool) (l : List Char) : Bool :=
  match dropLit w.toList l with
  | some r => p r
  | none => false

/-- Regex `\s+` then `p` (all backtracking splits tried). -/
def spacesThen (p : List Char → Bool) : List Char → Bool
  | [] => false
  | c :: rest => isPySpace c && (p rest || spacesThen p rest)

/-- Regex `\w+` then `p` (all backtracking splits tried). -/
def wordsThen (p : List Char → Bool) : List Char → Bool
  | [] => false
  | c :: rest => isWordChar c && (p rest || wordsThen p rest)

/-- Regex `\s*` then `p` (all backtracking splits tried). -/
def optSpacesThen (p : List Char → Bool) : List Char → Bool
  | [] => p []
  | c :: rest => p (c :: rest) || (isPySpace c && optSpacesThen p rest)

/-- `re.search`: try the anchored matcher at every position. -/
def anyPos (p : List Char → Bool) : List Char → Bool
  | [] => p []
  | c :: rest => p (c :: rest) || anyPos p rest

/-- Regex `.*:\s*$` where `.` excludes the newline. -/
def dotColonEnd : List Char → Bool
  | [] => false
  | c :: rest => (c == ':' && rest.all isPySpace) || (c != '\n' && dotColonEnd rest)

/-- Regex `\b<word>\b` searched anywhere (the word consists of word
characters, so `\b` is a boundary against the neighbours). -/
def searchWordAux (w : String) : Option Char → List Char → Bool
  | prev, [] => prevBoundary prev && litThen w endBoundary []
  | prev, c :: rest =>
    (prevBoundary prev && litThen w endBoundary (c :: rest)) ||
      searchWordAux w (some c) rest

def searchWordB (w : String) (l : List Char) : Bool :=
  searchWordAux w none l

def squote : Char := Char.ofNat 39

/-- Regex `^\s*(#|//|\*)`. -/
def startsCommentMarker (l : List Char) : Bool :=
  optSpacesThen
    (fun t =>
      match t with
      | '#' :: _ => true
      | '/' :: '/' :: _ => true
      | '*' :: _ => true
      | _ => false)
    l

def restQuoteTail (l : List Char) : Bool :=
  l.all (fun d => isPySpace d || d == ',' || d == ';')

/-- Suffix of the pattern `.*["'][\s,;]*$` after the opening quote. -/
def hasCloseQuote : List Char → Bool
  | [] => false
  | c :: rest =>
    ((c == '"' || c == squote) && restQuoteTail rest) ||
      (c != '\n' && hasCloseQuote rest)

/-- Regex `^\s*["'].*["'][\s,;]*$`. -/
def quotedLine (l : List Char) : Bool :=
  optSpacesThen
    (fun t =>
      match t with
      | c :: rest => (c == '"' || c == squote) && hasCloseQuote rest
      | [] => false)
    l

/-- The fixup-pattern loop of `_is_likely_fixup_content`. -/
def fixupPatternMatch (content : List Char) : Bool :=
  searchWordB ("fix") content || searchWordB ("correct") content ||
    searchWordB ("update") content ||
  searchWordB ("typo") content || searchWordB ("spelling") content ||
    searchWordB ("grammar") content ||
  searchWordB ("format") content || searchWordB ("style") content ||
    searchWordB ("indent") content ||
  startsCommentMarker content ||
  content.all (fun c => !c.isAlpha) ||
  quotedLine content

/-- `ChangeClassifier._is_likely_fixup_content`. -/
def isLikelyFixupContent (change : ChangedLine) : Bool :=
  let content := pyLower (pyStrip change.content.toList)
  fixupPatternMatch content || decide (content.length < 10)

/-- The complexity-indicator loop of `_is_large_change`. -/
def complexityMatch (content : List Char) : Bool :=
  anyPos (litThen ("def")
    (spacesThen (wordsThen (optSpacesThen (fun t => t.head? == some '('))))) content ||
  anyPos (litThen ("class") (spacesThen (wordsThen (fun _ => true)))) content ||
  anyPos (litThen ("import") (spacesThen (wordsThen (fun _ => true)))) content ||
  anyPos (litThen ("if") (spacesThen dotColonEnd)) content ||
  anyPos (litThen ("for") (spacesThen dotColonEnd)) content ||
  anyPos (litThen ("while") (spacesThen dotColonEnd)) content

/-- `ChangeClassifier._is_large_change`. -/
def isLargeChange (change : ChangedLine) : Bool :=
  let content := pyStrip change.content.toList
  decide (100 < content.length) || complexityMatch content

/-- The structure-pattern loop of `_adds_new_structure` (all patterns
are anchored at the start). -/
def structureMatch (content : List Char) : Bool :=
  optSpacesThen (litThen ("def") (spacesThen (wordsThen (fun _ => true)))) content ||
  optSpacesThen (litThen ("class") (spacesThen (wordsThen (fun _ => true)))) content ||
  optSpacesThen (litThen ("if") (spacesThen (litThen ("__name__") (fun _ => true)))) content ||
  optSpacesThen (litThen ("@") (wordsThen (fun _ => true))) content ||
  optSpacesThen
    (litThen ("from") (spacesThen (wordsThen (spacesThen (litThen ("import") (fun _ => true))))))
    content

/-- `ChangeClassifier._adds_new_structure`. -/
def addsNewStructure (change : ChangedLine) : Bool :=
  structureMatch (pyStrip change.content.toList)

/-- `ChangeClassifier._is_new_file`: `git show HEAD:<path>` succeeds
iff the file exists at HEAD; any `GitCommandError` yields `True`. The
git call is the oracle `gitShow`. -/
def isNewFile (gitShow : String → Except String String) (file_path : String) : Bool :=
  match gitShow file_path with
  | Except.ok _ => false
  | Except.error _ => true

/-- `ChangeClassifier.classify_change`. `isOldCommit` abstracts
`_is_old_commit` (a pure git/clock query that swallows its own
exceptions and returns a boolean). -/
def classifyChange (gitShow : String → Except String String)
    (isOldCommit : String → Bool) (change : ChangedLine)
    (target_commit_hash : Option String) : ChangeClassification :=
  if isNewFile gitShow change.file_path then ChangeClassification.new_file
  else if isLikelyFixupContent change then ChangeClassification.likely_fixup
  else if isLargeChange change then ChangeClassification.unlikely_fixup
  else if (match target_commit_hash with
           | some h => (h != "") && isOldCommit h
           | none => false) then ChangeClassification.unlikely_fixup
  else if addsNewStructure change then ChangeClassification.unlikely_fixup
  else ChangeClassification.possible_fixup

/-- `GitAnalyzer._classify_changes` (always called with no target hash). -/
def classifyChanges (gitShow : String → Except String String)
    (isOldCommit : String → Bool) (changed_lines : List ChangedLine) :
    List ChangedLine :=
  changed_lines.map fun l =>
    { l with classification := classifyChange gitShow isOldCommit l none }

/-! ## Aggregation: GitAnalyzer.find_fixup_targets

`get_blame_info` is pure git interaction and is abstracted as the
oracle `blame`; `commitLookup` abstracts `self.repo.commit(hash)`
returning the stripped message and the formatted author string, with
`none` for a `BadName` failure. -/

/-- `GitAnalyzer._find_context_commits`. -/
def findContextCommits (blame : String → Nat → Option BlameInfo)
    (file_path : String) (line_number : Nat) : List String :=
  dedupKeepFirst
    ((([-2, -1, 1, 2] : List Int).foldl
      (fun acc offset =>
        let target_line : Int := (line_number : Int) + offset
        if 0 < target_line then
          match blame file_path target_line.toNat with
          | some bi => acc ++ [bi.commit_hash]
          | none => acc
        else acc)
      []))

/-- One offset probe as worded by the spec: skip a non-positive
resulting position, otherwise the commit hash blame resolves to there,
if any. -/
def contextProbe (blame : String → Nat → Option BlameInfo)
    (file_path : String) (line_number : Nat) (offset : Int) : Option String :=
  if 0 < (line_number : Int) + offset then
    (blame file_path ((line_number : Int) + offset).toNat).map (fun bi => bi.commit_hash)
  else none

/-- The spec wording of context-commit collection: query blame at the
four offsets -2, -1, +1, +2 from the line position in that order,
skipping non-positive positions, collect the resolved hashes in scan
order and de-duplicate preserving first occurrence. -/
def contextCommitsSpec (blame : String → Nat → Option BlameInfo)
    (file_path : String) (line_number : Nat) : List String :=
  dedupKeepFirst
    (([-2, -1, 1, 2] : List Int).filterMap (contextProbe blame file_path line_number))

/-- The per-line origin resolution of the aggregation loop in
`find_fixup_targets`: blame at the line itself for deleted/modified
lines, the first context commit for added lines. -/
def resolveLineCommit (blame : String → Nat → Option BlameInfo)
    (l : ChangedLine) : Option String :=
  if l.change_type = "deleted" ∨ l.change_type = "modified" then
    (blame l.file_path l.line_number).map (fun bi => bi.commit_hash)
  else if l.change_type = "added" then
    (findContextCommits blame l.file_path l.line_number).head?
  else none

/-- Append a line to the group of a commit hash, creating the group at
the end on first use (insertion-ordered dict). -/
def addToGroup (gs : List (String × List ChangedLine)) (h : String)
    (l : ChangedLine) : List (String × List ChangedLine) :=
  match gs with
  | [] => [(h, [l])]
  | (k, ls) :: rest =>
    if k = h then (k, ls ++ [l]) :: rest else (k, ls) :: addToGroup rest h l

/-- One iteration of the aggregation loop: unresolved lines are
skipped, resolved lines are appended to their commit group. -/
def groupStep (blame : String → Nat → Option BlameInfo)
    (gs : List (String × List ChangedLine)) (l : ChangedLine) :
    List (String × List ChangedLine) :=
  match resolveLineCommit blame l with
  | some h => addToGroup gs h l
  | none => gs

/-- The `commit_groups` dictionary after the aggregation loop. -/
def buildCommitGroups (blame : String → Nat → Option BlameInfo)
    (changed_lines : List ChangedLine) : List (String × List ChangedLine) :=
  changed_lines.foldl (groupStep blame) []

/-- Soundness invariant of the groups: every group is nonempty and
every member resolved to exactly its group key. -/
def GroupsWF (blame : String → Nat → Option BlameInfo)
    (gs : List (String × List ChangedLine)) : Prop :=
  ∀ p ∈ gs, p.2 ≠ [] ∧ ∀ x ∈ p.2, resolveLineCommit blame x = some p.1

/-- One iteration of the target-materialization loop; a failing commit
lookup silently drops the group. -/
def materializeStep (commitLookup : String → Option (String × String))
    (acc : List FixupTarget) (p : String × List ChangedLine) : List FixupTarget :=
  match commitLookup p.1 with
  | some ma =>
    acc ++ [{ commit_hash := p.1, commit_message := ma.1, author := ma.2,
              changed_lines := p.2,
              files := dedupKeepFirst (p.2.map (fun l => l.file_path)) }]
  | none => acc

/-- Materialize `FixupTarget` records from the groups. -/
def aggregateTargets (blame : String → Nat → Option BlameInfo)
    (commitLookup : String → Option (String × String))
    (changed_lines : List ChangedLine) : List FixupTarget :=
  (buildCommitGroups blame changed_lines).foldl (materializeStep commitLookup) []

/-! ## GitAnalyzer._filter_targets_by_mode -/

def filterTargetsByMode (targets : List FixupTarget) (filter_mode : FilterMode) :
    List FixupTarget :=
  match filter_mode with
  | FilterMode.include_all => targets
  | FilterMode.fixups_only =>
    targets.filter fun t =>
      let classifications := t.changed_lines.map (fun l => l.classification)
      decide ((1 : ℚ) / 2 ≤
        ((classifications.count ChangeClassification.likely_fixup : Nat) : ℚ) /
          ((classifications.length : Nat) : ℚ))
  | FilterMode.smart_default =>
    targets.filter fun t =>
      let classifications := t.changed_lines.map (fun l => l.classification)
      decide
        ((((classifications.count ChangeClassification.new_file +
            classifications.count ChangeClassification.unlikely_fixup : Nat)) : ℚ) /
          ((classifications.length : Nat) : ℚ) < 7 / 10)

/-- `find_fixup_targets` with `limit_sha=None`, starting from the
classified, reconciled changed lines. -/
def findFixupTargetsCore (blame : String → Nat → Option BlameInfo)
    (commitLookup : String → Option (String × String))
    (changed_lines : List ChangedLine) (filter_mode : FilterMode) :
    List FixupTarget :=
  filterTargetsByMode (aggregateTargets blame commitLookup changed_lines) filter_mode

/-! ## GitAnalyzer.filter_targets_by_organization -/

/-- Match of `<([^>]+)>` anchored at an opening angle bracket whose
tail is `rest`: `[^>]+` takes the maximal run of non-`>` characters,
which must be nonempty and followed by `>`. -/
def angleAt (rest : List Char) : Option (List Char) :=
  if (rest.takeWhile (fun d => d ≠ '>')) ≠ [] ∧
      (rest.drop (rest.takeWhile (fun d => d ≠ '>')).length).head? = some '>' then
    some (rest.takeWhile (fun d => d ≠ '>'))
  else none

/-- Leftmost match of `<([^>]+)>`, returning group 1. -/
def searchAngleEmail : List Char → Option (List Char)
  | [] => none
  | c :: rest =>
    if c = '<' then
      match angleAt rest with
      | some mid => some mid
      | none => searchAngleEmail rest
    else searchAngleEmail rest

/-- Does a maximal non-space run contain `\S+@\S+\.\S+`, i.e. an `@`
at index at least 1 followed, two or more positions later, by a `.`
that is not the last character? -/
def validBareRun (r : List Char) : Bool :=
  (List.range r.length).any fun p =>
    decide (1 ≤ p) && (r.get? p == some '@') &&
      ((List.range r.length).any fun q =>
        decide (p + 2 ≤ q) && decide (q + 2 ≤ r.length) && (r.get? q == some '.'))

/-- Leftmost match of `\S+@\S+\.\S+`; with all three quantifiers greedy
the matched text is the whole maximal non-space run from the leftmost
viable start. -/
def searchBareEmail : List Char → Option (List Char)
  | [] => none
  | c :: rest =>
    if isPySpace c then searchBareEmail rest
    else
      if validBareRun ((c :: rest).takeWhile (fun d => !isPySpace d)) then
        some ((c :: rest).takeWhile (fun d => !isPySpace d))
      else searchBareEmail rest

/-- `GitAnalyzer._extract_email_from_author`. -/
def extractEmailFromAuthor (author_str : String) : Option String :=
  match searchAngleEmail author_str.toList with
  | some e => some (String.mk e)
  | none =>
    if author_str.toList.contains '@' ∧ author_str.toList.contains '.' then
      (searchBareEmail author_str.toList).map String.mk
    else none

/-- `GitAnalyzer.filter_targets_by_organization`. Compilation of the
user-supplied pattern by the external regex engine is the oracle
`compileCI`: on success it yields the case-insensitive search predicate. -/
def filterTargetsByOrganization (compileCI : String → Except String (String → Bool))
    (targets : List FixupTarget) (org_email_pattern : String) :
    Except String (List FixupTarget) :=
  match compileCI org_email_pattern with
  | Except.error e => Except.error ("Invalid email pattern: " ++ e)
  | Except.ok search =>
    Except.ok (targets.filter fun t =>
      match extractEmailFromAuthor t.author with
      | some e => (e != "") && search e
      | none => false)

/-! ## Concrete inputs used by the claim theorems and witnesses -/

/-- A deleted line that no added line pairs with. -/
def soloDel : ChangedLine :=
  ⟨"a.txt", 5, "helo world", "deleted", ChangeClassification.possible_fixup, none⟩

/-- A deleted line at position 1 (window counterexample). -/
def delAtOne : ChangedLine :=
  ⟨"a.txt", 1, "foo_bar = 1", "deleted", ChangeClassification.possible_fixup, none⟩

/-- An added line at position 20 with content identical to `delAtOne`. -/
def addAtTwenty : ChangedLine :=
  ⟨"a.txt", 20, "foo_bar = 1", "added", ChangeClassification.possible_fixup, none⟩

/-- A deleted line that pairs with `aPair`. -/
def dPair : ChangedLine :=
  ⟨"a.txt", 10, "ab", "deleted", ChangeClassification.possible_fixup, none⟩

/-- An added line identical in content to `dPair` at the same position. -/
def aPair : ChangedLine :=
  ⟨"a.txt", 10, "ab", "added", ChangeClassification.possible_fixup, none⟩

/-- A whitespace-only deleted line. -/
def blankDel : ChangedLine :=
  ⟨"a.txt", 5, " ", "deleted", ChangeClassification.possible_fixup, none⟩

/-- A whitespace-only added line identical to `blankDel` at the same position. -/
def blankAdd : ChangedLine :=
  ⟨"a.txt", 5, " ", "added", ChangeClassification.possible_fixup, none⟩

/-- A history oracle that always fails (e.g. an unreadable repository). -/
def errorShow : String → Except String String :=
  fun _ => Except.error ("fatal: unable to read tree")

/-- A history oracle for which every file exists at HEAD. -/
def okShow : String → Except String String :=
  fun _ => Except.ok ("blob content")

/-- A line whose content matches no classifier pattern. -/
def cexLine : ChangedLine :=
  ⟨"a.txt", 5, "result_value = compute_interesting(data_set)", "modified",
    ChangeClassification.possible_fixup, none⟩

/-- A one-character line (`"x"`). -/
def shortLine : ChangedLine :=
  ⟨"f.py", 3, "x", "added", ChangeClassification.possible_fixup, none⟩

def unlikelyLine : ChangedLine :=
  ⟨"f.py", 1, "y", "added", ChangeClassification.unlikely_fixup, none⟩

def possibleLine : ChangedLine :=
  ⟨"f.py", 2, "z", "added", ChangeClassification.possible_fixup, none⟩

def likelyLine : ChangedLine :=
  ⟨"f.py", 4, "w", "added", ChangeClassification.likely_fixup, none⟩

/-- A target with exactly 7 of 10 lines classified `unlikely_fixup`. -/
def sevenOfTenUnlikely : FixupTarget :=
  ⟨"c7", "msg", "Au <au@x.org>",
    List.replicate 7 unlikelyLine ++ List.replicate 3 possibleLine, ["f.py"]⟩

/-- A target with 2 of 3 lines classified `likely_fixup`. -/
def twoOfThreeLikely : FixupTarget :=
  ⟨"c3", "msg", "Au <au@x.org>", [likelyLine, likelyLine, possibleLine], ["f.py"]⟩

/-- A blame oracle resolving only line 2 of file `a`. -/
def blameW : String → Nat → Option BlameInfo :=
  fun f n => if f = "a" ∧ n = 2 then some ⟨"c1", "m", "Au <au@x.org>", "x"⟩ else none

/-- A commit lookup knowing only commit `c1`. -/
def clkW : String → Option (String × String) :=
  fun h => if h = "c1" then some ("msg", "Au <au@x.org>") else none

/-- An added line at line 3 of file `a` (context resolves via line 2). -/
def addLineW : ChangedLine :=
  ⟨"a", 3, "zz", "added", ChangeClassification.possible_fixup, none⟩

/-- The target `aggregateTargets blameW clkW [addLineW]` produces. -/
def tW : FixupTarget :=
  ⟨"c1", "msg", "Au <au@x.org>", [addLineW], ["a"]⟩

/-- A regex-compilation oracle failing only on the pattern `bad`. -/
def compileW : String → Except String (String → Bool) :=
  fun pattern =>
    if pattern = "bad" then Except.error ("boom")
    else Except.ok (fun e => e.toList.contains '@')

/-- A target authored by `Jane Doe <jane@example.com>`. -/
def tJane : FixupTarget :=
  ⟨"c1", "m", "Jane Doe <jane@example.com>", [addLineW], ["a"]⟩

/-! ## C1 -/

/-- C1: the claim states that a deleted line left unpaired by the
reconciler appears exactly once in the output; the code appends an
unpaired deleted line both in the no-match branch of the pairing loop
and again in the remaining-unmatched loop, so it appears twice. This
theorem evaluates the reconciler at the failing input. -/
theorem unpaired_deleted_emitted_twice :
    enhanceChangeDetection [soloDel] = [soloDel, soloDel] ∧
      (enhanceChangeDetection [soloDel]).count soloDel = 2 := by
  constructor
  · rfl
  · rfl

/-! ## C2 -/

/-- C2: the claim states the diff parser is total and skips malformed
hunks. The code references the line counters before any well-formed
hunk header assigns them, raising `UnboundLocalError` on a body line
that follows only a file header; and after a well-formed hunk, the
body lines of a following malformed hunk are emitted with stale
counters instead of being skipped. This theorem evaluates the parser
at both failing inputs. -/
theorem parse_diff_not_total :
    parseDiff ("diff --git a/f b/f\n-x") =
        Except.error ("UnboundLocalError: old_line_num") ∧
      parseDiff ("diff --git a/f b/f\n@@ -1 +1 @@\n-a\n@@ bad\n-b") =
        Except.ok
          [⟨"f", 1, "a", "deleted", ChangeClassification.possible_fixup, none⟩,
           ⟨"f", 2, "b", "deleted", ChangeClassification.possible_fixup, none⟩] := by
  constructor
  · rfl
  · rfl

/-! ## C3 -/

/-- C3 counterexample: when the history query errors (here: a failing
oracle standing for `git show` raising `GitCommandError` for a reason
other than absence), the classifier returns `new_file`, not a
pre-existing classification. -/
theorem classifier_error_returns_new_file :
    errorShow cexLine.file_path = Except.error ("fatal: unable to read tree") ∧
      classifyChange errorShow (fun _ => false) cexLine none =
        ChangeClassification.new_file := by
  exact ⟨rfl, rfl⟩

/-- The classification cascade after the new-file test never yields
`new_file`, whatever the remaining heuristics decide. -/
lemma cascade_ne_new_file (b2 b3 b4 b5 : Bool) :
    (if b2 = true then ChangeClassification.likely_fixup
     else if b3 = true then ChangeClassification.unlikely_fixup
     else if b4 = true then ChangeClassification.unlikely_fixup
     else if b5 = true then ChangeClassification.unlikely_fixup
     else ChangeClassification.possible_fixup) ≠ ChangeClassification.new_file := by
  cases b2 <;> cases b3 <;> cases b4 <;> cases b5 <;> decide

/-- C3 amended: the classifier returns `new_file` exactly when the
HEAD-tree query for the line's file fails (absence and genuine query
errors are indistinguishable to the code and both yield `new_file`);
the file is treated as pre-existing exactly when the query succeeds. -/
theorem classifier_new_file_iff_query_fails
    (gitShow : String → Except String String) (isOldCommit : String → Bool)
    (change : ChangedLine) (target : Option String) :
    classifyChange gitShow isOldCommit change target = ChangeClassification.new_file ↔
      ∃ e, gitShow change.file_path = Except.error e := by
  cases hq : gitShow change.file_path with
  | error e =>
    have hnf : isNewFile gitShow change.file_path = true := by
      simp [isNewFile, hq]
    simp [classifyChange, hnf]
  | ok v =>
    have hnf : isNewFile gitShow change.file_path = false := by
      simp [isNewFile, hq]
    have hcas : classifyChange gitShow isOldCommit change target =
        (if isLikelyFixupContent change = true then ChangeClassification.likely_fixup
         else if isLargeChange change = true then ChangeClassification.unlikely_fixup
         else if (match target with
                  | some h => (h != "") && isOldCommit h
                  | none => false) = true then ChangeClassification.unlikely_fixup
         else if addsNewStructure change = true then ChangeClassification.unlikely_fixup
         else ChangeClassification.possible_fixup) := by
      simp only [classifyChange, hnf, Bool.false_eq_true, if_false]
    constructor
    · intro h
      rw [hcas] at h
      exact absurd h (cascade_ne_new_file _ _ _ _)
    · rintro ⟨e, he⟩
      exact Except.noConfusion he

/-! ## C5 -/

/-- C5: `include_all` is the identity; `fixups_only` keeps a target iff
the fraction of its lines classified `likely_fixup` is at least 1/2;
`smart_default` keeps a target iff the combined `new_file` and
`unlikely_fixup` fraction is strictly below 7/10; a target with exactly
7 of 10 lines `unlikely_fixup` is dropped under `smart_default`. -/
theorem mode_filter_characterization (targets : List FixupTarget) (t : FixupTarget)
    (_ht : ∀ u ∈ targets, u.changed_lines ≠ []) :
    filterTargetsByMode targets FilterMode.include_all = targets ∧
      (t ∈ filterTargetsByMode targets FilterMode.fixups_only ↔
        t ∈ targets ∧
          (1 : ℚ) / 2 ≤
            (((t.changed_lines.map (fun l => l.classification)).count
                ChangeClassification.likely_fixup : Nat) : ℚ) /
              (((t.changed_lines.map (fun l => l.classification)).length : Nat) : ℚ)) ∧
      (t ∈ filterTargetsByMode targets FilterMode.smart_default ↔
        t ∈ targets ∧
          ((((t.changed_lines.map (fun l => l.classification)).count
                ChangeClassification.new_file +
              (t.changed_lines.map (fun l => l.classification)).count
                ChangeClassification.unlikely_fixup : Nat)) : ℚ) /
              (((t.changed_lines.map (fun l => l.classification)).length : Nat) : ℚ) <
            7 / 10) ∧
      filterTargetsByMode [sevenOfTenUnlikely] FilterMode.smart_default = [] := by
  refine ⟨rfl, ?_, ?_, by decide⟩
  · simp only [filterTargetsByMode, List.mem_filter, decide_eq_true_eq]
  · simp only [filterTargetsByMode, List.mem_filter, decide_eq_true_eq]

/-- Witness for C5 at concrete inputs: a 2-of-3 `likely_fixup` target
passes `fixups_only`, and the 7-of-10 `unlikely_fixup` target is
dropped under `smart_default`. -/
theorem mode_filter_characterization_witness :
    (twoOfThreeLikely ∈
        filterTargetsByMode [twoOfThreeLikely] FilterMode.fixups_only) ∧
      filterTargetsByMode [sevenOfTenUnlikely] FilterMode.smart_default = [] := by
  have h := mode_filter_characterization [twoOfThreeLikely] twoOfThreeLikely
    (by intro u hu; simp at hu; subst hu; decide)
  refine ⟨(h.2.1).mpr ⟨by simp, by decide⟩, h.2.2.2⟩

/-! ## C4 and C10: the pairing rule of the reconciler -/

lemma bestAcc_extend_notcand {del a : ChangedLine} {used pre : List ChangedLine}
    {acc : Option ChangedLine × ℚ} (h : BestAcc del used pre acc)
    (hnc : ¬ pairCandidate used del a) : BestAcc del used (pre ++ [a]) acc := by
  obtain ⟨hn, hs⟩ := h
  constructor
  · intro h1
    obtain ⟨h2, h3⟩ := hn h1
    refine ⟨h2, ?_⟩
    intro b hb
    rcases List.mem_append.mp hb with hb | hb
    · exact h3 b hb
    · rw [List.mem_singleton] at hb
      subst hb
      exact hnc
  · intro a0 h1
    obtain ⟨hm, hc, hq, hmax, l1, l2, hpre, hlt⟩ := hs a0 h1
    refine ⟨List.mem_append_left _ hm, hc, hq, ?_, l1, l2 ++ [a], ?_, hlt⟩
    · intro b hb hcb
      rcases List.mem_append.mp hb with hb | hb
      · exact hmax b hb hcb
      · rw [List.mem_singleton] at hb
        subst hb
        exact absurd hcb hnc
    · rw [hpre]
      simp

lemma bestAcc_extend_new {del a : ChangedLine} {used pre : List ChangedLine}
    {acc : Option ChangedLine × ℚ} (h : BestAcc del used pre acc)
    (hc : pairCandidate used del a) (hgt : acc.2 < simOf del a) :
    BestAcc del used (pre ++ [a]) (some a, simOf del a) := by
  obtain ⟨hn, hs⟩ := h
  constructor
  · intro h1
    exact Option.noConfusion h1
  · intro a0 h1
    have ha : a = a0 := by
      injection h1
    subst ha
    refine ⟨List.mem_append_right _ (List.mem_singleton_self a), hc, rfl, ?_, pre, [], rfl, ?_⟩
    · intro b hb hcb
      rcases List.mem_append.mp hb with hb | hb
      · cases hacc : acc.1 with
        | none =>
          exact absurd hcb ((hn hacc).2 b hb)
        | some a1 =>
          obtain ⟨_, _, hq1, hmax1, _⟩ := hs a1 hacc
          refine le_of_lt (lt_of_le_of_lt (hmax1 b hb hcb) ?_)
          rw [← hq1]
          exact hgt
      · rw [List.mem_singleton] at hb
        subst hb
        exact le_refl _
    · intro b hb hcb
      cases hacc : acc.1 with
      | none =>
        exact absurd hcb ((hn hacc).2 b hb)
      | some a1 =>
        obtain ⟨_, _, hq1, hmax1, _⟩ := hs a1 hacc
        refine lt_of_le_of_lt (hmax1 b hb hcb) ?_
        rw [← hq1]
        exact hgt

lemma bestAcc_extend_keep {del a : ChangedLine} {used pre : List ChangedLine}
    {acc : Option ChangedLine × ℚ} (h : BestAcc del used pre acc)
    (hc : pairCandidate used del a) (hle : simOf del a ≤ acc.2) :
    BestAcc del used (pre ++ [a]) acc := by
  obtain ⟨hn, hs⟩ := h
  constructor
  · intro h1
    exfalso
    obtain ⟨hz, _⟩ := hn h1
    rw [hz] at hle
    have h35 := hc.2.2
    have : (3 / 5 : ℚ) < 0 := lt_of_lt_of_le h35 hle
    norm_num at this
  · intro a0 h1
    obtain ⟨hm, hc0, hq, hmax, l1, l2, hpre, hlt⟩ := hs a0 h1
    refine ⟨List.mem_append_left _ hm, hc0, hq, ?_, l1, l2 ++ [a], ?_, hlt⟩
    · intro b hb hcb
      rcases List.mem_append.mp hb with hb | hb
      · exact hmax b hb hcb
      · rw [List.mem_singleton] at hb
        subst hb
        rw [← hq]
        exact hle
    · rw [hpre]
      simp

/-- The candidate-scan invariant is preserved by `bestLoop`. -/
lemma bestLoop_inv (del : ChangedLine) (used : List ChangedLine) :
    ∀ (rest pre : List ChangedLine) (acc : Option ChangedLine × ℚ),
      BestAcc del used pre acc →
      BestAcc del used (pre ++ rest) (bestLoop del used rest acc) := by
  intro rest
  induction rest with
  | nil =>
    intro pre acc h
    simpa [bestLoop] using h
  | cons a rest ih =>
    intro pre acc h
    have hsplit : pre ++ a :: rest = (pre ++ [a]) ++ rest := by simp
    rw [hsplit]
    by_cases hmem : a ∈ used
    · rw [show bestLoop del used (a :: rest) acc = bestLoop del used rest acc from by
        simp [bestLoop, hmem]]
      exact ih (pre ++ [a]) acc (bestAcc_extend_notcand h (fun hc => hc.1 hmem))
    · by_cases hdist : 5 < lineDist del a
      · rw [show bestLoop del used (a :: rest) acc = bestLoop del used rest acc from by
          simp [bestLoop, hmem, hdist]]
        refine ih (pre ++ [a]) acc (bestAcc_extend_notcand h ?_)
        intro hcand
        have := hcand.2.1
        omega
      · by_cases hcond : 3 / 5 < simOf del a ∧ acc.2 < simOf del a
        · rw [show bestLoop del used (a :: rest) acc =
              bestLoop del used rest (some a, simOf del a) from by
            simp [bestLoop, hmem, hdist, hcond]]
          exact ih (pre ++ [a]) _
            (bestAcc_extend_new h ⟨hmem, le_of_not_lt hdist, hcond.1⟩ hcond.2)
        · rw [show bestLoop del used (a :: rest) acc = bestLoop del used rest acc from by
            simp [bestLoop, hmem, hdist, hcond]]
          by_cases hcand : pairCandidate used del a
          · refine ih (pre ++ [a]) acc (bestAcc_extend_keep h hcand ?_)
            rcases not_and_or.mp hcond with h1 | h1
            · exact absurd hcand.2.2 h1
            · exact le_of_not_lt h1
          · exact ih (pre ++ [a]) acc (bestAcc_extend_notcand h hcand)

/-- What a successful `bestMatch` guarantees: the result is a
candidate of maximal similarity, and the first such in encounter
order. -/
lemma bestMatch_spec {del a : ChangedLine} {used adds : List ChangedLine}
    (h : bestMatch del used adds = some a) :
    a ∈ adds ∧ pairCandidate used del a ∧
      (∀ b ∈ adds, pairCandidate used del b → simOf del b ≤ simOf del a) ∧
      ∃ l1 l2, adds = l1 ++ a :: l2 ∧
        ∀ b ∈ l1, pairCandidate used del b → simOf del b < simOf del a := by
  have hinit : BestAcc del used [] (none, 0) := by
    constructor
    · intro _
      exact ⟨rfl, fun b hb => absurd hb (List.not_mem_nil b)⟩
    · intro a0 h0
      exact Option.noConfusion h0
  have hinv := bestLoop_inv del used adds [] (none, 0) hinit
  rw [List.nil_append] at hinv
  unfold bestMatch at h
  obtain ⟨hm, hc, _, hmax, hfirst⟩ := hinv.2 a h
  exact ⟨hm, hc, hmax, hfirst⟩

lemma bestMatch_eq_none_of_no_cand {del : ChangedLine} {used adds : List ChangedLine}
    (h : ∀ b ∈ adds, ¬ pairCandidate used del b) : bestMatch del used adds = none := by
  cases hr : bestMatch del used adds with
  | none => rfl
  | some a =>
    obtain ⟨hm, hc, _, _⟩ := bestMatch_spec hr
    exact absurd hc (h a hm)

lemma enhance_fold_out (lines : List ChangedLine) :
    ∀ (ds : List ChangedLine) (acc : EnhanceAcc),
      (∀ x ∈ ds, x ∈ lines ∧ x.change_type = "deleted") →
      (∀ r ∈ acc.out, r.change_type = "modified" → modifiedProvenance lines r) →
      ∀ r ∈ (ds.foldl (enhanceStep (lines.filter (fun l => l.change_type == "added")))
          acc).out,
        r.change_type = "modified" → modifiedProvenance lines r := by
  intro ds
  induction ds with
  | nil =>
    intro acc _ hout
    simpa using hout
  | cons d ds ih =>
    intro acc hd hout
    rw [List.foldl_cons]
    refine ih _ (fun x hx => hd x (List.mem_cons_of_mem d hx)) ?_
    intro r hr hrt
    unfold enhanceStep at hr
    by_cases hmem : d ∈ acc.usedDel
    · rw [if_pos hmem] at hr
      exact hout r hr hrt
    · rw [if_neg hmem] at hr
      cases hbm : bestMatch d acc.usedAdd (lines.filter (fun l => l.change_type == "added")) with
      | some a =>
        rw [hbm] at hr
        simp only [List.mem_append, List.mem_singleton] at hr
        rcases hr with hr | hr
        · exact hout r hr hrt
        · obtain ⟨ham, hcand, _, _⟩ := bestMatch_spec hbm
          obtain ⟨hal, hat⟩ := List.mem_filter.mp ham
          obtain ⟨hdl, hdt⟩ := hd d (List.mem_cons_self d ds)
          exact ⟨d, a, hdl, hal, hdt, by simpa using hat, hcand.2.1, hcand.2.2, hr⟩
      | none =>
        rw [hbm] at hr
        simp only [List.mem_append, List.mem_singleton] at hr
        rcases hr with hr | hr
        · exact hout r hr hrt
        · obtain ⟨_, hdt⟩ := hd d (List.mem_cons_self d ds)
          rw [hr, hdt] at hrt
          exact absurd hrt (by decide)

/-- Any `modified` record in the per-file reconciler output is either
an input record or a merged pair as described by the claim. -/
lemma enhanceFile_modified (lines : List ChangedLine) (r : ChangedLine)
    (hr : r ∈ enhanceFile lines) (hrt : r.change_type = "modified") :
    r ∈ lines ∨ modifiedProvenance lines r := by
  simp only [enhanceFile, List.mem_append] at hr
  rcases hr with ((hr | hr) | hr) | hr
  · right
    refine enhance_fold_out lines (lines.filter (fun l => l.change_type == "deleted"))
      ⟨[], [], []⟩ ?_ ?_ r hr hrt
    · intro x hx
      obtain ⟨hxl, hxt⟩ := List.mem_filter.mp hx
      exact ⟨hxl, by simpa using hxt⟩
    · intro r0 hr0
      exact absurd hr0 (List.not_mem_nil r0)
  · obtain ⟨hin, _⟩ := List.mem_filter.mp hr
    obtain ⟨_, hty⟩ := List.mem_filter.mp hin
    have : r.change_type = "deleted" := by simpa using hty
    rw [this] at hrt
    exact absurd hrt (by decide)
  · obtain ⟨hin, _⟩ := List.mem_filter.mp hr
    obtain ⟨_, hty⟩ := List.mem_filter.mp hin
    have : r.change_type = "added" := by simpa using hty
    rw [this] at hrt
    exact absurd hrt (by decide)
  · left
    exact (List.mem_filter.mp hr).1

/-- C4: the reconciler pairs a deleted line only with an unpaired added
line within 5 positions and with similarity strictly above 0.6, picks
the highest-similarity candidate with ties broken by encounter order,
and the synthetic `modified` record carries the deleted line's position
and the added line's content; an identical pair at distance 19 is never
paired. -/
theorem reconciler_pairing_rule :
    (∀ del_line used_added added_lines a,
        bestMatch del_line used_added added_lines = some a →
          a ∈ added_lines ∧ a ∉ used_added ∧ lineDist del_line a ≤ 5 ∧
            3 / 5 < simOf del_line a ∧
            (∀ b ∈ added_lines, pairCandidate used_added del_line b →
              simOf del_line b ≤ simOf del_line a) ∧
            ∃ l1 l2, added_lines = l1 ++ a :: l2 ∧
              ∀ b ∈ l1, pairCandidate used_added del_line b →
                simOf del_line b < simOf del_line a) ∧
    (∀ lines r, r ∈ enhanceFile lines → r.change_type = "modified" →
        r ∈ lines ∨ modifiedProvenance lines r) ∧
    (∀ r ∈ enhanceFile [delAtOne, addAtTwenty], r.change_type ≠ "modified") := by
  refine ⟨?_, ?_, by decide⟩
  · intro del used adds a h
    obtain ⟨hm, hc, hmax, hfirst⟩ := bestMatch_spec h
    exact ⟨hm, hc.1, hc.2.1, hc.2.2, hmax, hfirst⟩
  · intro lines r hr hrt
    exact enhanceFile_modified lines r hr hrt

/-- Witness for C4: the identical pair at distance 0 is selected and
merged; the merged record satisfies the provenance property. -/
theorem reconciler_pairing_rule_witness :
    (aPair ∈ [aPair] ∧ aPair ∉ ([] : List ChangedLine) ∧ lineDist dPair aPair ≤ 5 ∧
      3 / 5 < simOf dPair aPair ∧
      (∀ b ∈ [aPair], pairCandidate [] dPair b → simOf dPair b ≤ simOf dPair aPair) ∧
      ∃ l1 l2, [aPair] = l1 ++ aPair :: l2 ∧
        ∀ b ∈ l1, pairCandidate [] dPair b → simOf dPair b < simOf dPair aPair) ∧
    (mkModified dPair aPair ∈ [dPair, aPair] ∨
      modifiedProvenance [dPair, aPair] (mkModified dPair aPair)) :=
  ⟨reconciler_pairing_rule.1 dPair [] [aPair] aPair (by decide),
    reconciler_pairing_rule.2.1 [dPair, aPair] (mkModified dPair aPair)
      (by decide) (by decide)⟩

/-- C10: a delete/add pair with either side blank after stripping has
similarity 0.0 and is never reconciled: the blank deleted line pairs
with nothing, a blank added line is never selected, and two identical
whitespace-only lines at the same position pass through as separate
`deleted`/`added` records with no `modified` record. -/
theorem blank_similarity_never_paired :
    (∀ s t : String, pyStrip s.toList = [] →
        calculateSimilarity s t = 0 ∧ calculateSimilarity t s = 0) ∧
    (∀ del_line used_added added_lines, pyStrip del_line.content.toList = [] →
        bestMatch del_line used_added added_lines = none) ∧
    (∀ del_line used_added added_lines a, pyStrip a.content.toList = [] →
        bestMatch del_line used_added added_lines ≠ some a) ∧
    (∀ r ∈ enhanceFile [blankDel, blankAdd], r.change_type ≠ "modified") ∧
    blankDel ∈ enhanceFile [blankDel, blankAdd] ∧
    blankAdd ∈ enhanceFile [blankDel, blankAdd] := by
  have hsim : ∀ s t : String, pyStrip s.toList = [] →
      calculateSimilarity s t = 0 ∧ calculateSimilarity t s = 0 := by
    intro s t h
    have h2 : pyStrip s.data = [] := h
    constructor <;> simp [calculateSimilarity, h, h2]
  refine ⟨hsim, ?_, ?_, by decide, by decide, by decide⟩
  · intro del used adds h
    apply bestMatch_eq_none_of_no_cand
    intro b hb hc
    have h0 : simOf del b = 0 := (hsim del.content b.content h).1
    have := hc.2.2
    rw [h0] at this
    norm_num at this
  · intro del used adds a h hsome
    obtain ⟨_, hc, _, _⟩ := bestMatch_spec hsome
    have h0 : simOf del a = 0 := (hsim a.content del.content h).2
    have := hc.2.2
    rw [h0] at this
    norm_num at this

/-- Witness for C10: a whitespace-only string has similarity 0 with
any string, and the blank deleted line finds no match. -/
theorem blank_similarity_never_paired_witness :
    calculateSimilarity (" ") ("xyz") = 0 ∧ bestMatch blankDel [] [blankAdd] = none :=
  ⟨(blank_similarity_never_paired.1 (" ") ("xyz") (by decide)).1,
    blank_similarity_never_paired.2.1 blankDel [] [blankAdd] (by decide)⟩

/-! ## C9 -/

/-- C9: for a line whose file exists in the committed tree, trimmed
content shorter than 10 characters classifies as `likely_fixup`,
regardless of keyword matches, the later length/structural rules, and
any supplied target commit. -/
theorem short_content_classifies_likely
    (gitShow : String → Except String String) (isOldCommit : String → Bool)
    (change : ChangedLine) (target : Option String) (s : String)
    (hq : gitShow change.file_path = Except.ok s)
    (hlen : (pyStrip change.content.toList).length < 10) :
    classifyChange gitShow isOldCommit change target =
      ChangeClassification.likely_fixup := by
  have hnew : isNewFile gitShow change.file_path = false := by
    simp [isNewFile, hq]
  have hlik : isLikelyFixupContent change = true := by
    simp only [isLikelyFixupContent, Bool.or_eq_true, decide_eq_true_eq]
    right
    simpa [pyLower, List.length_map] using hlen
  simp [classifyChange, hnew, hlik]

/-- Witness for C9: the content `"x"` classifies as `likely_fixup`. -/
theorem short_content_classifies_likely_witness :
    (pyStrip shortLine.content.toList).length < 10 ∧
      classifyChange okShow (fun _ => false) shortLine none =
        ChangeClassification.likely_fixup := by
  exact ⟨by decide,
    short_content_classifies_likely okShow (fun _ => false) shortLine none
      ("blob content") rfl (by decide)⟩

/-! ## C6 and C8: context attribution and aggregation -/

lemma foldl_append_toList {α β : Type} (g : α → Option β) (f : List β → α → List β)
    (hf : ∀ acc x, f acc x = acc ++ (g x).toList) :
    ∀ (l : List α) (acc : List β), l.foldl f acc = acc ++ l.filterMap g := by
  intro l
  induction l with
  | nil =>
    intro acc
    simp
  | cons x l ih =>
    intro acc
    rw [List.foldl_cons, ih, hf]
    cases hgx : g x <;> simp [List.filterMap_cons, hgx]

/-- C6 part: the source loop of `_find_context_commits` computes
exactly the spec-worded collection. -/
lemma findContextCommits_eq_spec (blame : String → Nat → Option BlameInfo)
    (file_path : String) (line_number : Nat) :
    findContextCommits blame file_path line_number =
      contextCommitsSpec blame file_path line_number := by
  unfold findContextCommits contextCommitsSpec
  congr 1
  rw [foldl_append_toList (contextProbe blame file_path line_number) _ ?_ _ []]
  · rw [List.nil_append]
  · intro acc offset
    unfold contextProbe
    by_cases h : 0 < (line_number : Int) + offset
    · rw [if_pos h, if_pos h]
      cases blame file_path ((line_number : Int) + offset).toNat <;> simp
    · rw [if_neg h, if_neg h]
      simp

lemma addToGroup_wf (blame : String → Nat → Option BlameInfo) (hsh : String)
    (l : ChangedLine) (hres : resolveLineCommit blame l = some hsh) :
    ∀ gs, GroupsWF blame gs → GroupsWF blame (addToGroup gs hsh l) := by
  intro gs
  induction gs with
  | nil =>
    intro _ p hp
    simp only [addToGroup] at hp
    rw [List.mem_singleton] at hp
    subst hp
    refine ⟨by simp, ?_⟩
    intro x hx
    rw [List.mem_singleton] at hx
    subst hx
    exact hres
  | cons q rest ih =>
    intro hwf p hp
    obtain ⟨k, ls⟩ := q
    simp only [addToGroup] at hp
    by_cases hk : k = hsh
    · rw [if_pos hk] at hp
      rcases List.mem_cons.mp hp with hph | hpr
      · subst hph
        refine ⟨by simp, ?_⟩
        intro x hx
        rcases List.mem_append.mp hx with hx | hx
        · exact (hwf (k, ls) (List.mem_cons_self _ _)).2 x hx
        · rw [List.mem_singleton] at hx
          subst hx
          rw [hres, hk]
      · exact hwf p (List.mem_cons_of_mem _ hpr)
    · rw [if_neg hk] at hp
      rcases List.mem_cons.mp hp with hph | hpr
      · subst hph
        exact hwf (k, ls) (List.mem_cons_self _ _)
      · exact ih (fun p0 hp0 => hwf p0 (List.mem_cons_of_mem _ hp0)) p hpr

lemma buildCommitGroups_wf (blame : String → Nat → Option BlameInfo)
    (changed_lines : List ChangedLine) :
    GroupsWF blame (buildCommitGroups blame changed_lines) := by
  have hstep : ∀ (ls : List ChangedLine) (gs), GroupsWF blame gs →
      GroupsWF blame (ls.foldl (groupStep blame) gs) := by
    intro ls
    induction ls with
    | nil =>
      intro gs h
      exact h
    | cons l rest ih =>
      intro gs h
      rw [List.foldl_cons]
      apply ih
      unfold groupStep
      cases hres : resolveLineCommit blame l with
      | none => exact h
      | some hsh => exact addToGroup_wf blame hsh l hres gs h
  unfold buildCommitGroups
  refine hstep changed_lines [] ?_
  intro p hp
  exact absurd hp (List.not_mem_nil p)

lemma materialize_fold_mem (commitLookup : String → Option (String × String)) :
    ∀ (gs : List (String × List ChangedLine)) (acc : List FixupTarget) (t : FixupTarget),
      t ∈ gs.foldl (materializeStep commitLookup) acc →
      t ∈ acc ∨ ∃ p, p ∈ gs ∧ t.commit_hash = p.1 ∧ t.changed_lines = p.2 := by
  intro gs
  induction gs with
  | nil =>
    intro acc t ht
    exact Or.inl ht
  | cons p rest ih =>
    intro acc t ht
    rw [List.foldl_cons] at ht
    rcases ih _ t ht with hacc | ⟨q, hq, h1, h2⟩
    · unfold materializeStep at hacc
      cases hclk : commitLookup p.1 with
      | some ma =>
        rw [hclk] at hacc
        rcases List.mem_append.mp hacc with hl | hl
        · exact Or.inl hl
        · rw [List.mem_singleton] at hl
          exact Or.inr ⟨p, List.mem_cons_self _ _, by simp [hl], by simp [hl]⟩
      | none =>
        rw [hclk] at hacc
        exact Or.inl hacc
    · exact Or.inr ⟨q, List.mem_cons_of_mem _ hq, h1, h2⟩

lemma aggregate_target_shape {blame : String → Nat → Option BlameInfo}
    {commitLookup : String → Option (String × String)}
    {changed_lines : List ChangedLine} {t : FixupTarget}
    (ht : t ∈ aggregateTargets blame commitLookup changed_lines) :
    ∃ ls, (t.commit_hash, ls) ∈ buildCommitGroups blame changed_lines ∧
      t.changed_lines = ls := by
  unfold aggregateTargets at ht
  rcases materialize_fold_mem commitLookup _ _ _ ht with h | ⟨p, hp, h1, h2⟩
  · exact absurd h (List.not_mem_nil t)
  · refine ⟨p.2, ?_, h2⟩
    rw [h1]
    exact hp

/-- Every member of a target's line list resolved to that target's
commit hash. -/
lemma target_member_resolves {blame : String → Nat → Option BlameInfo}
    {commitLookup : String → Option (String × String)}
    {changed_lines : List ChangedLine} {t : FixupTarget} {l : ChangedLine}
    (ht : t ∈ aggregateTargets blame commitLookup changed_lines)
    (hl : l ∈ t.changed_lines) :
    resolveLineCommit blame l = some t.commit_hash := by
  obtain ⟨ls, hgs, hls⟩ := aggregate_target_shape ht
  rw [hls] at hl
  exact (buildCommitGroups_wf blame changed_lines (t.commit_hash, ls) hgs).2 l hl

lemma resolve_added (blame : String → Nat → Option BlameInfo) (l : ChangedLine)
    (hl : l.change_type = "added") :
    resolveLineCommit blame l =
      (findContextCommits blame l.file_path l.line_number).head? := by
  unfold resolveLineCommit
  rw [hl, if_neg (by decide), if_pos rfl]

lemma resolve_del_mod_none (blame : String → Nat → Option BlameInfo)
    (l : ChangedLine) (hl : l.change_type = "deleted" ∨ l.change_type = "modified")
    (hb : blame l.file_path l.line_number = none) :
    resolveLineCommit blame l = none := by
  unfold resolveLineCommit
  rw [if_pos hl, hb]
  rfl

/-- C6: the context scan equals its spec wording at the four offsets;
an added line whose context-commit list is empty, and a deleted or
modified line whose direct blame is absent, are excluded from every
aggregated target; an added line inside a target was attributed to the
first context commit. -/
theorem context_commit_attribution :
    (∀ (blame : String → Nat → Option BlameInfo) file_path line_number,
        findContextCommits blame file_path line_number =
          contextCommitsSpec blame file_path line_number) ∧
    (∀ (blame : String → Nat → Option BlameInfo) commitLookup changed_lines
        (l : ChangedLine) (t : FixupTarget),
        l.change_type = "added" →
        findContextCommits blame l.file_path l.line_number = [] →
        t ∈ aggregateTargets blame commitLookup changed_lines →
        l ∉ t.changed_lines) ∧
    (∀ (blame : String → Nat → Option BlameInfo) commitLookup changed_lines
        (l : ChangedLine) (t : FixupTarget) (c : String) (rest : List String),
        l.change_type = "added" →
        findContextCommits blame l.file_path l.line_number = c :: rest →
        t ∈ aggregateTargets blame commitLookup changed_lines →
        l ∈ t.changed_lines → t.commit_hash = c) ∧
    (∀ (blame : String → Nat → Option BlameInfo) commitLookup changed_lines
        (l : ChangedLine) (t : FixupTarget),
        l.change_type = "deleted" ∨ l.change_type = "modified" →
        blame l.file_path l.line_number = none →
        t ∈ aggregateTargets blame commitLookup changed_lines →
        l ∉ t.changed_lines) := by
  refine ⟨findContextCommits_eq_spec, ?_, ?_, ?_⟩
  · intro blame commitLookup changed_lines l t hl hctx ht hmem
    have h1 := target_member_resolves ht hmem
    rw [resolve_added blame l hl, hctx] at h1
    exact Option.noConfusion h1
  · intro blame commitLookup changed_lines l t c rest hl hctx ht hmem
    have h1 := target_member_resolves ht hmem
    rw [resolve_added blame l hl, hctx] at h1
    simp only [List.head?] at h1
    injection h1 with h2
    exact h2.symm
  · intro blame commitLookup changed_lines l t hl hb ht hmem
    have h1 := target_member_resolves ht hmem
    rw [resolve_del_mod_none blame l hl hb] at h1
    exact Option.noConfusion h1

/-- Witness for C6 at a concrete blame oracle: the context scan at
line 3 resolves via line 2, and the aggregated target is attributed to
that commit. -/
theorem context_commit_attribution_witness :
    findContextCommits blameW ("a") 3 = contextCommitsSpec blameW ("a") 3 ∧
      tW.commit_hash = "c1" :=
  ⟨context_commit_attribution.1 blameW ("a") 3,
    context_commit_attribution.2.2.1 blameW clkW [addLineW] addLineW tW ("c1") []
      (by decide) (by decide) (by decide) (by decide)⟩

/-- C8: every target the aggregation pass produces contains at least
one changed line (groups are created only when a line is appended), so
the mode filter's fraction computations never divide by zero on
aggregated targets, before or after filtering. -/
theorem aggregated_targets_have_lines (blame : String → Nat → Option BlameInfo)
    (commitLookup : String → Option (String × String))
    (changed_lines : List ChangedLine) (filter_mode : FilterMode) :
    (∀ t ∈ aggregateTargets blame commitLookup changed_lines,
        1 ≤ t.changed_lines.length) ∧
    (∀ t ∈ findFixupTargetsCore blame commitLookup changed_lines filter_mode,
        1 ≤ t.changed_lines.length) := by
  have hagg : ∀ t ∈ aggregateTargets blame commitLookup changed_lines,
      1 ≤ t.changed_lines.length := by
    intro t ht
    obtain ⟨ls, hgs, hls⟩ := aggregate_target_shape ht
    have hne := (buildCommitGroups_wf blame changed_lines (t.commit_hash, ls) hgs).1
    rw [hls]
    cases ls with
    | nil => exact absurd rfl hne
    | cons a l => simp
  refine ⟨hagg, ?_⟩
  intro t ht
  apply hagg
  unfold findFixupTargetsCore at ht
  cases filter_mode with
  | include_all => exact ht
  | fixups_only => exact (List.mem_filter.mp ht).1
  | smart_default => exact (List.mem_filter.mp ht).1

/-- Witness for C8 at a concrete oracle: the single aggregated target
has one line. -/
theorem aggregated_targets_have_lines_witness :
    tW ∈ aggregateTargets blameW clkW [addLineW] ∧ 1 ≤ tW.changed_lines.length :=
  ⟨by decide,
    (aggregated_targets_have_lines blameW clkW [addLineW] FilterMode.include_all).1
      tW (by decide)⟩

/-! ## C7: the organization filter -/

lemma angleAt_ne_nil {rest mid : List Char} (h : angleAt rest = some mid) :
    mid ≠ [] := by
  unfold angleAt at h
  split at h
  · injection h with h2
    rw [← h2]
    rename_i hg
    exact hg.1
  · exact Option.noConfusion h

lemma searchAngleEmail_ne_nil : ∀ (l mid : List Char),
    searchAngleEmail l = some mid → mid ≠ [] := by
  intro l
  induction l with
  | nil =>
    intro mid h
    exact Option.noConfusion h
  | cons c rest ih =>
    intro mid h
    unfold searchAngleEmail at h
    by_cases hc : c = '<'
    · rw [if_pos hc] at h
      cases hA : angleAt rest with
      | some m =>
        rw [hA] at h
        injection h with h2
        rw [← h2]
        exact angleAt_ne_nil hA
      | none =>
        rw [hA] at h
        exact ih mid h
    · rw [if_neg hc] at h
      exact ih mid h

lemma searchBareEmail_ne_nil : ∀ (l r : List Char),
    searchBareEmail l = some r → r ≠ [] := by
  intro l
  induction l with
  | nil =>
    intro r h
    exact Option.noConfusion h
  | cons c rest ih =>
    intro r h
    unfold searchBareEmail at h
    cases hpc : isPySpace c with
    | true =>
      rw [if_pos hpc] at h
      exact ih r h
    | false =>
      rw [if_neg (by simp [hpc])] at h
      by_cases hv : validBareRun ((c :: rest).takeWhile (fun d => !isPySpace d)) = true
      · rw [if_pos hv] at h
        injection h with h2
        rw [← h2]
        simp [List.takeWhile_cons, hpc]
      · rw [if_neg hv] at h
        exact ih r h

lemma extractEmail_ne_empty {author_str : String} {e : String}
    (h : extractEmailFromAuthor author_str = some e) : e ≠ "" := by
  unfold extractEmailFromAuthor at h
  cases hA : searchAngleEmail author_str.toList with
  | some mid =>
    rw [hA] at h
    injection h with h2
    intro hcon
    have hmid : mid = [] := congrArg String.data (h2.trans hcon)
    exact absurd hmid (searchAngleEmail_ne_nil _ mid hA)
  | none =>
    rw [hA] at h
    by_cases hg : author_str.toList.contains '@' ∧ author_str.toList.contains '.'
    · rw [if_pos hg] at h
      cases hB : searchBareEmail author_str.toList with
      | some r =>
        rw [hB] at h
        simp only [Option.map] at h
        injection h with h2
        intro hcon
        have hr : r = [] := congrArg String.data (h2.trans hcon)
        exact absurd hr (searchBareEmail_ne_nil _ r hB)
      | none =>
        rw [hB] at h
        simp only [Option.map] at h
        exact Option.noConfusion h
    · rw [if_neg hg] at h
      exact Option.noConfusion h

/-- C7: an uncompilable pattern is an error; with a compiled pattern
the filter keeps exactly the targets whose author yields an extractable
email that the pattern matches; a bracketed email is preferred and an
author with no email is dropped without error. -/
theorem organization_filter_rule :
    (∀ (compileCI : String → Except String (String → Bool))
        (targets : List FixupTarget) (pattern msg : String),
        compileCI pattern = Except.error msg →
        filterTargetsByOrganization compileCI targets pattern =
          Except.error ("Invalid email pattern: " ++ msg)) ∧
    (∀ (compileCI : String → Except String (String → Bool))
        (targets : List FixupTarget) (pattern : String) (p : String → Bool),
        compileCI pattern = Except.ok p →
        filterTargetsByOrganization compileCI targets pattern =
            Except.ok (targets.filter fun u =>
              match extractEmailFromAuthor u.author with
              | some e => (e != "") && p e
              | none => false) ∧
          ∀ t, (t ∈ targets.filter fun u =>
              match extractEmailFromAuthor u.author with
              | some e => (e != "") && p e
              | none => false) ↔
            t ∈ targets ∧ ∃ e, extractEmailFromAuthor t.author = some e ∧ p e = true) ∧
    extractEmailFromAuthor ("Jane Doe <jane@example.com>") = some ("jane@example.com") ∧
    extractEmailFromAuthor ("Jane Doe") = none := by
  refine ⟨?_, ?_, by decide, by decide⟩
  · intro compileCI targets pattern msg h
    unfold filterTargetsByOrganization
    rw [h]
  · intro compileCI targets pattern p h
    constructor
    · unfold filterTargetsByOrganization
      rw [h]
    · intro t
      rw [List.mem_filter]
      constructor
      · rintro ⟨htin, hp⟩
        refine ⟨htin, ?_⟩
        cases hE : extractEmailFromAuthor t.author with
        | some e =>
          rw [hE] at hp
          have hp2 : ((e != "") && p e) = true := hp
          rw [Bool.and_eq_true] at hp2
          exact ⟨e, rfl, hp2.2⟩
        | none =>
          rw [hE] at hp
          exact Bool.noConfusion hp
      · rintro ⟨htin, e, hE, hpe⟩
        refine ⟨htin, ?_⟩
        rw [hE]
        show ((e != "") && p e) = true
        rw [Bool.and_eq_true]
        exact ⟨bne_iff_ne.mpr (extractEmail_ne_empty hE), hpe⟩

/-- Witness for C7: the failing pattern surfaces an error; Jane Doe's
bracketed email is extracted and matched. -/
theorem organization_filter_rule_witness :
    filterTargetsByOrganization compileW [] ("bad") =
        Except.error ("Invalid email pattern: " ++ "boom") ∧
      (tJane ∈ [tJane] ∧ ∃ e, extractEmailFromAuthor tJane.author = some e ∧
        (fun e => e.toList.contains '@') e = true) :=
  ⟨organization_filter_rule.1 compileW [] ("bad") ("boom") rfl,
    ((organization_filter_rule.2.1 compileW [tJane] (".*")
        (fun e => e.toList.contains '@') rfl).2 tJane).mp (by decide)⟩

end FFF
